import Mathlib

/-!
Verification development for the local-LLM service of the obs-overlay
repository (the `localLLMService` sidecar module).  Text is embedded as
`List Char` (JavaScript strings restricted to the code points the service
manipulates); machine numbers are embedded as `Nat` / `Int` / `ℚ` with the
exact integer and rational semantics of the source expressions.  The
stateful model-lifecycle code is embedded by explicit state passing over a
record mirroring the module-level mutable variables, with the outcomes of
the awaited external operations (download, engine load, context and
session creation) supplied by an explicit environment record.
-/

namespace LocalLLM

/-- JavaScript whitespace test used by `String.prototype.trim` and the
regex class backslash-s, restricted to the ASCII range. -/
def isWS (c : Char) : Bool :=
  c == ' ' || c == '\t' || c == '\n' || c == '\r' || c == '\x0b' || c == '\x0c'

/-- Embedding of `String.prototype.trim`: strip leading and trailing
whitespace. -/
def trim (s : List Char) : List Char :=
  ((s.dropWhile isWS).reverse.dropWhile isWS).reverse

/-- `estimateTokens(text)`: `Math.ceil(text.length / 4)`. -/
def estimateTokens (text : List Char) : Nat :=
  (text.length + 3) / 4

/-- Clamp a possibly negative JavaScript `slice` index into `0..len`,
as `String.prototype.slice` does. -/
def jsIdx (len : Nat) (i : Int) : Nat :=
  if i < 0 then (len + i).toNat else min i.toNat len

/-- `text.slice(start)` for a JavaScript string. -/
def jsSlice1 (s : List Char) (start : Int) : List Char :=
  s.drop (jsIdx s.length start)

/-- `text.slice(start, stop)` for a JavaScript string. -/
def jsSlice2 (s : List Char) (start stop : Int) : List Char :=
  (s.take (jsIdx s.length stop)).drop (jsIdx s.length start)

/-- The literal truncation marker spliced in by `truncateForContext`. -/
def marker : List Char :=
  "\n\n[... content truncated for length ...]\n\n".data

/-- Embedding of `truncateForContext(text, maxTokens = 800)` from the
source: if the token estimate fits, return the text unchanged, otherwise
keep `Math.floor(maxTokens*4/2) - 50` characters from each end (via
JavaScript `slice` semantics) around the marker. -/
def truncateForContext (text : List Char) (maxTokens : Nat := 800) : List Char :=
  if estimateTokens text ≤ maxTokens then text
  else
    let maxChars : Int := (maxTokens : Int) * 4
    let halfChars : Int := maxChars / 2 - 50
    let beginning := jsSlice2 text 0 halfChars
    let ending := jsSlice1 text (-halfChars)
    beginning ++ marker ++ ending

/-- The shape of the truncated result claimed by the specification:
a prefix of `floor(maxTokens*4/2) - 50` characters, the literal marker,
and a suffix of the same length (lengths read in `Nat`, clamped at 0). -/
def claimedTruncate (text : List Char) (maxTokens : Nat) : List Char :=
  if estimateTokens text ≤ maxTokens then text
  else
    let halfChars : Nat := maxTokens * 4 / 2 - 50
    text.take halfChars ++ marker ++ text.drop (text.length - halfChars)

/-- Split on the regex `\n\n+` exactly as `String.prototype.split` does:
a separator is a maximal run of at least two newlines. -/
def spAux (s : List Char) (acc : List Char) : List (List Char) :=
  match s with
  | [] => [acc.reverse]
  | '\n' :: '\n' :: rest =>
      acc.reverse :: spAux (rest.dropWhile (fun c => c == '\n')) []
  | c :: rest => spAux rest (c :: acc)
termination_by s.length
decreasing_by
  all_goals simp_all
  have h : (rest.dropWhile (fun c => c == '\n')).length ≤ rest.length :=
    (List.dropWhile_sublist _).length_le
  omega

/-- `text.split(/\n\n+/)` from `chunkText`. -/
def splitPara (text : List Char) : List (List Char) :=
  spAux text []

/-- The accumulation step of `chunkText`: append the paragraph,
preceded by a blank-line separator when the accumulator is nonempty. -/
def jsJoin (paras : List (List Char)) : List Char :=
  paras.foldl (fun cur p => cur ++ (if cur = [] then [] else ['\n', '\n']) ++ p) []

/-- The paragraph loop of `chunkText`, with the accumulator
`currentChunk` passed explicitly. -/
def chunkTextAux (maxChars : Nat) : List (List Char) → List Char → List (List Char)
  | [], cur => if trim cur = [] then [] else [trim cur]
  | p :: ps, cur =>
      if (cur ++ p).length > maxChars ∧ cur.length > 0 then
        trim cur :: chunkTextAux maxChars ps p
      else
        chunkTextAux maxChars ps (cur ++ (if cur = [] then [] else ['\n', '\n']) ++ p)

/-- Embedding of `chunkText(text, maxTokensPerChunk = 600)`. -/
def chunkText (text : List Char) (maxTokensPerChunk : Nat := 600) : List (List Char) :=
  chunkTextAux (maxTokensPerChunk * 4) (splitPara text) []

/-- The direct summarization prompt built by `summarize`. -/
def directPrompt (maxLength : Nat) (text : List Char) : List Char :=
  "Summarize the following text in ".data ++ (Nat.repr maxLength).data ++
    " sentences or less. Be concise and capture the main points:\n\n".data ++
    text ++ "\n\nSummary:".data

/-- The per-chunk summarization prompt built by `summarize`. -/
def chunkPrompt (chunk : List Char) : List Char :=
  "Summarize this text section in 1-2 sentences:\n\n".data ++ chunk ++
    "\n\nSummary:".data

/-- The final combine prompt built by `summarize`. -/
def finalPrompt (maxLength : Nat) (combined : List Char) : List Char :=
  "Combine these summaries into a coherent ".data ++ (Nat.repr maxLength).data ++
    "-sentence summary:\n\n".data ++ combined ++ "\n\nFinal summary:".data

/-- Embedding of `summarize(text, maxLength = 3)`.  The engine is
abstracted by the pure oracle `chatFn` mapping a prompt to the chat
response.  The result is the returned summary together with the list of
prompts passed to `chat`, in call order, so that the number and content
of chat calls is observable. -/
def summarize (chatFn : List Char → List Char) (text : List Char)
    (maxLength : Nat := 3) : List Char × List (List Char) :=
  if trim text = [] then ([], [])
  else if estimateTokens text < 700 then
    let p := directPrompt maxLength text
    (chatFn p, [p])
  else
    let chunks := chunkText text 500
    if chunks.length = 1 then
      let p := directPrompt maxLength (truncateForContext text 700)
      (chatFn p, [p])
    else
      let prompts := (chunks.take 5).map chunkPrompt
      let summaries := (chunks.take 5).map (fun c => trim (chatFn (chunkPrompt c)))
      let combined := List.intercalate [' '] summaries
      let fp := finalPrompt maxLength combined
      (chatFn fp, prompts ++ [fp])

/-- Index of the first character satisfying `p`. -/
def firstIdx (p : Char → Bool) : List Char → Option Nat
  | [] => none
  | c :: cs => if p c then some 0 else (firstIdx p cs).map (· + 1)

/-- Index of the last character satisfying `p`. -/
def lastIdx (p : Char → Bool) (s : List Char) : Option Nat :=
  (firstIdx p s.reverse).map (fun r => s.length - 1 - r)

/-- `response.match(/\{[\s\S]*\}/)` from `parseCommand`: the regex
matches from the first opening brace through the last closing brace of
the response (the earliest possible start, then the greedy longest
extent), or fails when no closing brace occurs after an opening one. -/
def extractBraced (s : List Char) : Option (List Char) :=
  match firstIdx (fun c => c == '{') s, lastIdx (fun c => c == '}') s with
  | some i, some j => if i < j then some ((s.take (j + 1)).drop i) else none
  | _, _ => none

/-- Result of `parseCommand`: either the JSON object parsed from the
extracted substring, or the structured fallback object
`{action: "unknown", raw: command}` carrying the original command. -/
inductive CmdResult (J : Type) where
  | parsed (j : J)
  | fallbackUnknown (raw : List Char)
deriving DecidableEq

/-- Embedding of the response-processing part of `parseCommand(command)`.
`chatResponse` is the text produced by the chat call and `jsonParse`
abstracts `JSON.parse` (returning `none` where `JSON.parse` would
throw); the `try`/`catch` of the source turns every parse failure into
the fallback object. -/
def parseCommand {J : Type} (jsonParse : List Char → Option J)
    (chatResponse command : List Char) : CmdResult J :=
  match extractBraced chatResponse with
  | some m =>
      match jsonParse m with
      | some j => .parsed j
      | none => .fallbackUnknown command
  | none => .fallbackUnknown command

/-- Embedding of `isModelValid(modelPath, modelName)`.  `fileExists` is
the result of `existsSync`; `stat` is the result of `statSync`, with
`Except.error` standing for a thrown filesystem error; `expectedSize` is
the `MODEL_SIZES` lookup (`none` for an unknown model name).  The
`expectedSize * 0.9` multiplication is embedded with exact rational
semantics. -/
def isModelValid (fileExists : Bool) (stat : Except Unit Nat)
    (expectedSize : Option Nat) : Bool :=
  if !fileExists then false
  else
    match stat with
    | .error _ => false
    | .ok size =>
        let sizeOk :=
          match expectedSize with
          | some e => !(decide ((size : ℚ) < (e : ℚ) * (9 / 10)))
          | none => true
        sizeOk && !(decide (size < 100000000))

/-- The validity predicate as the specification states it: the file
exists, `statSync` succeeded, and the size is at least
`max(100MB, 0.9 * expectedSizeBytes)`. -/
def isModelValid_spec (fileExists : Bool) (stat : Except Unit Nat)
    (expectedSize : Nat) : Bool :=
  fileExists &&
    match stat with
    | .ok size => decide (max (100000000 : ℚ) ((9 / 10) * (expectedSize : ℚ)) ≤ (size : ℚ))
    | .error _ => false

/-- Decidable equality for thrown-or-returned outcomes. -/
instance exceptDecEq {ε α : Type} [DecidableEq ε] [DecidableEq α] :
    DecidableEq (Except ε α)
  | .ok a, .ok b =>
      if h : a = b then .isTrue (by rw [h]) else .isFalse (by simp [h])
  | .error a, .error b =>
      if h : a = b then .isTrue (by rw [h]) else .isFalse (by simp [h])
  | .ok _, .error _ => .isFalse (by simp)
  | .error _, .ok _ => .isFalse (by simp)

/-- The module-level mutable variables of the service: the engine
handle `llama`, the `model` handle, the inference `context`, the
`chatSession`, plus `currentModelName`, the `isLoading` guard flag and
`loadProgress` (a rational, since the download band is scaled by 0.5). -/
structure LLMState where
  llama : Bool
  model : Bool
  context : Bool
  chatSession : Bool
  currentModelName : Option String
  isLoading : Bool
  loadProgress : ℚ
deriving DecidableEq

/-- One event published on the progress bus by `notifyProgress(type,
progress, modelName, error = null)`. -/
structure ProgressEvent where
  kind : String
  progress : ℚ
  modelName : String
  error : Option String
deriving DecidableEq

/-- Outcomes of the awaited external operations performed during
`loadModel`: whether `existsSync(modelPath)` holds, the per-chunk
progress percentages reported by the download stream followed by the
download outcome, whether `initializeLLM` succeeds, and the outcomes of
`llama.loadModel`, `model.createContext` and `new LlamaChatSession`. -/
structure LoadEnv where
  fileExists : Bool
  downloadProgress : List Nat
  downloadResult : Except String Unit
  initOk : Bool
  engineLoadResult : Except String Unit
  createContextResult : Except String Unit
  createSessionResult : Except String Unit
deriving DecidableEq

/-- Result of one `loadModel` call: the final state of the module
variables, the progress events published during the call in order, and
the value returned to the caller (`Except.error` standing for a thrown
error). -/
structure LoadResult where
  state : LLMState
  events : List ProgressEvent
  result : Except String Bool
deriving DecidableEq

/-- Events published while download chunks arrive: for each chunk the
`onProgress` callback of `loadModel` first sets
`loadProgress = progress * 0.5` and publishes a `loading` event, then
`downloadModel` itself publishes a `download` event. -/
def dlEvents (name : String) (ps : List Nat) : List ProgressEvent :=
  ps.flatMap (fun p => [⟨"loading", (p : ℚ) / 2, name, none⟩, ⟨"download", (p : ℚ), name, none⟩])

/-- The `catch` block of `loadModel`: clear `isLoading`, reset
`loadProgress` to 0, publish an `error` event and rethrow. -/
def catchLoad (s : LLMState) (evs : List ProgressEvent) (name e : String) : LoadResult :=
  ⟨{ s with isLoading := false, loadProgress := 0 },
    evs ++ [⟨"error", 0, name, some e⟩], .error e⟩

/-- The `try` block of `loadModel` (after `isLoading` is set): unload
any previous model, initialize the engine handle if absent, load the
model (dereferencing a null `llama` handle throws, which the same
`catch` captures), create the context, create the chat session, then
mark the load complete. -/
def enginePhase (env : LoadEnv) (s : LLMState) (evs : List ProgressEvent)
    (name : String) : LoadResult :=
  let s1 := if s.model then
      { s with model := false, context := false, chatSession := false,
               currentModelName := none }
    else s
  let s2 := if s1.llama then s1 else { s1 with llama := env.initOk }
  match (if s2.llama then env.engineLoadResult
         else .error "Cannot read properties of null") with
  | .error e => catchLoad s2 evs name e
  | .ok _ =>
    let s3 := { s2 with model := true, loadProgress := 80 }
    let evs1 := evs ++ [⟨"loading", 80, name, none⟩]
    match env.createContextResult with
    | .error e => catchLoad s3 evs1 name e
    | .ok _ =>
      let s4 := { s3 with context := true }
      match env.createSessionResult with
      | .error e => catchLoad s4 evs1 name e
      | .ok _ =>
        ⟨{ s4 with chatSession := true, currentModelName := some name,
                   loadProgress := 100, isLoading := false },
          evs1 ++ [⟨"loaded", 100, name, none⟩], .ok true⟩

/-- Embedding of `loadModel(modelName)`: the `isLoading` guard, the
already-loaded short circuit, the download performed when the artifact
is absent (note that it happens before `isLoading` is set and outside
the `try`), then the guarded engine phase. -/
def loadModel (env : LoadEnv) (s : LLMState) (name : String) : LoadResult :=
  if s.isLoading then ⟨s, [], .error "Model is already loading"⟩
  else if s.currentModelName = some name ∧ s.model then ⟨s, [], .ok true⟩
  else if env.fileExists then
    enginePhase env { s with isLoading := true, loadProgress := 50 }
      [⟨"loading", 50, name, none⟩] name
  else
    let evs := dlEvents name env.downloadProgress
    let s1 := { s with loadProgress :=
      ((env.downloadProgress.getLast?).map (fun p => (p : ℚ) / 2)).getD s.loadProgress }
    match env.downloadResult with
    | .error e => ⟨s1, evs, .error e⟩
    | .ok _ =>
        enginePhase env { s1 with isLoading := true, loadProgress := 50 }
          (evs ++ [⟨"loading", 50, name, none⟩, ⟨"loading", 50, name, none⟩]) name

/-- The synchronous prefix of `loadModel`, up to its first suspension
point: either it throws the AlreadyLoading error, or returns success
for the already-loaded model, or suspends awaiting `downloadModel`
(with the module state unchanged, in particular `isLoading` still
false), or proceeds directly to the engine phase having set
`isLoading`. -/
inductive LoadEntry where
  | alreadyLoadingError
  | noopSuccess
  | awaitDownload (s : LLMState)
  | engineStart (s : LLMState)
deriving DecidableEq

/-- The decisions `loadModel` takes before its first `await`. -/
def loadModelEntry (s : LLMState) (name : String) (fileExists : Bool) : LoadEntry :=
  if s.isLoading then .alreadyLoadingError
  else if s.currentModelName = some name ∧ s.model then .noopSuccess
  else if fileExists then .engineStart { s with isLoading := true, loadProgress := 50 }
  else .awaitDownload s

/-- The first failure produced inside the `try` block of `loadModel`
for a given environment and entry state (`none` when the engine phase
succeeds): a failed `llama.loadModel` (or the null dereference after a
failed `initializeLLM`), a failed `createContext`, or a failed session
construction. -/
def engineErr (env : LoadEnv) (s : LLMState) : Option String :=
  match (if s.llama || env.initOk then env.engineLoadResult
         else .error "Cannot read properties of null") with
  | .error e => some e
  | .ok _ =>
    match env.createContextResult with
    | .error e => some e
    | .ok _ =>
      match env.createSessionResult with
      | .error e => some e
      | .ok _ => none

/-- Outcome of delivering one progress event to one listener inside the
`try`/`catch` of `notifyProgress`: either the listener returned, or it
threw and the error was caught and logged. -/
inductive Delivery (E : Type) where
  | delivered
  | failedLogged (e : E)
deriving DecidableEq

/-- The caught outcome of invoking one listener. -/
def deliverOne {E : Type} (listener : ProgressEvent → Except E Unit)
    (ev : ProgressEvent) : Delivery E :=
  match listener ev with
  | .ok _ => .delivered
  | .error e => .failedLogged e

/-- Embedding of `notifyProgress`: invoke every registered listener in
registration order, catching (and logging) any error a listener throws
and continuing with the next one.  The function returns the per-listener
delivery log; it never propagates a listener error. -/
def notifyProgress {E : Type} (listeners : List (ProgressEvent → Except E Unit))
    (ev : ProgressEvent) : List (Delivery E) :=
  match listeners with
  | [] => []
  | l :: ls =>
      (match l ev with
       | .ok _ => Delivery.delivered
       | .error e => Delivery.failedLogged e) :: notifyProgress ls ev

/-- One input item of `batchCategorize`. -/
structure UrlItem where
  title : List Char
  url : List Char
deriving DecidableEq

/-- One output item of `batchCategorize`: the spread `{...item,
category}`. -/
structure CatItem where
  title : List Char
  url : List Char
  category : List Char
deriving DecidableEq

/-- Map `Char.toLower` over a string, the ASCII behaviour of
`String.prototype.toLowerCase`. -/
def toLowerList (s : List Char) : List Char :=
  s.map Char.toLower

/-- `haystack.includes(needle)` for JavaScript strings: substring
containment. -/
def jsIncludes (haystack needle : List Char) : Bool :=
  decide (needle <:+: haystack)

/-- `response.trim().split('\n')` splits on every single newline,
keeping empty pieces. -/
def splitOnNlAux (s : List Char) (acc : List Char) : List (List Char) :=
  match s with
  | [] => [acc.reverse]
  | '\n' :: rest => acc.reverse :: splitOnNlAux rest []
  | c :: rest => splitOnNlAux rest (c :: acc)
termination_by s.length
decreasing_by all_goals simp_all

/-- `text.split('\n')`. -/
def splitOnNl (s : List Char) : List (List Char) :=
  splitOnNlAux s []

/-- Capture group 1 of `line.match(/(?:\d+\.\s*)?(.+)/)`: `none` when
the line is empty (no match), otherwise the line with a leading
`digits.whitespace` numbering stripped.  The regex backtracks when
everything after the numbering is whitespace (group 1 then keeps the
last whitespace character) or empty (the optional group then does not
participate and group 1 is the whole line). -/
def numberedGroup (line : List Char) : Option (List Char) :=
  if line.isEmpty then none
  else
    some (
      let ds := line.takeWhile Char.isDigit
      if ds.length > 0 ∧ (line.drop ds.length).head? = some '.' then
        let afterDot := line.drop (ds.length + 1)
        let ws := afterDot.takeWhile isWS
        let rest := afterDot.drop ws.length
        if rest ≠ [] then rest
        else if afterDot ≠ [] then afterDot.drop (afterDot.length - 1)
        else line
      else line)

/-- The per-line category resolution of `batchCategorize`: parse the
category text out of the line, then the `find` over the category list (case-insensitive equality or
containment of the lowercased category name in the line), falling back
to the sentinel; the falsy-string guard means an empty matched category
also resolves to the sentinel. -/
def categorizeLine (categories : List (List Char)) (line : List Char) : List Char :=
  let category :=
    match numberedGroup line with
    | none => "unknown".data
    | some g => toLowerList (trim g)
  match categories.find? (fun c =>
      (toLowerList c == category) || jsIncludes category (toLowerList c)) with
  | some c => if c = [] then "unknown".data else c
  | none => "unknown".data

/-- The `batch.forEach((item, idx) => ...)` loop over one batch on a
successful chat call: item `idx` is categorized from response line
`idx`, a missing or empty line degrading to the empty string. -/
def processLines (categories : List (List Char)) (lines : List (List Char)) :
    Nat → List UrlItem → List CatItem
  | _, [] => []
  | idx, it :: rest =>
      ⟨it.title, it.url, categorizeLine categories ((lines.get? idx).getD [])⟩ ::
        processLines categories lines (idx + 1) rest

/-- Processing of one batch of at most 3 items: on a successful chat
call, parse one response line per item; on a thrown chat call, the
fallback assigns every item of the batch the sentinel category. -/
def processBatch (categories : List (List Char)) (batch : List UrlItem)
    (resp : Except Unit (List Char)) : List CatItem :=
  match resp with
  | .error _ => batch.map (fun it => ⟨it.title, it.url, "unknown".data⟩)
  | .ok response => processLines categories (splitOnNl (trim response)) 0 batch

/-- The batch loop of `batchCategorize`: slices of 3 items, one chat
call per slice (abstracted by the oracle `chatFn`, indexed by batch
number, with `Except.error` standing for a thrown call). -/
def bcGo (chatFn : Nat → Except Unit (List Char)) (categories : List (List Char)) :
    Nat → List UrlItem → List CatItem
  | _, [] => []
  | b, it :: rest =>
      processBatch categories ((it :: rest).take 3) (chatFn b) ++
        bcGo chatFn categories (b + 1) ((it :: rest).drop 3)
termination_by _ items => items.length
decreasing_by simp; omega

/-- Embedding of `batchCategorize(items, categories)`. -/
def batchCategorize (chatFn : Nat → Except Unit (List Char))
    (items : List UrlItem) (categories : List (List Char)) : List CatItem :=
  if items = [] then [] else bcGo chatFn categories 0 items

/-! ### Theorems -/

/-- Claim C1 (amended): a concurrent `loadModel` call is rejected
immediately with the AlreadyLoading error exactly while the guarded
engine-load phase is in flight, i.e. while the `isLoading` flag is set
(the flag is only set after any needed download has completed); the
rejected call publishes no event and leaves the module state — and
hence the in-flight sequence — undisturbed. -/
theorem loadModel_mutual_exclusion_loading_phase (env : LoadEnv) (s : LLMState)
    (name : String) (h : s.isLoading = true) :
    loadModel env s name = ⟨s, [], .error "Model is already loading"⟩ := by
  simp [loadModel, h]

/-- Witness for the amended theorem of claim C1 at a concrete in-flight state. -/
theorem loadModel_mutual_exclusion_loading_phase_witness :
    loadModel ⟨true, [], .ok (), true, .ok (), .ok (), .ok ()⟩
        ⟨true, false, false, false, none, true, 50⟩ "B" =
      ⟨⟨true, false, false, false, none, true, 50⟩, [],
        .error "Model is already loading"⟩ :=
  loadModel_mutual_exclusion_loading_phase _ _ _ rfl

/-- Counterexample to claim C1 as stated: from the idle state, a
`loadModel("A")` call whose artifact is absent suspends awaiting the
download with `isLoading` still false, and a concurrent
`loadModel("B")` call evaluated against that in-flight state is not
rejected with the AlreadyLoading error — it starts a second download
instead of failing fast. -/
theorem loadModel_download_not_guarded_cex :
    loadModelEntry ⟨true, false, false, false, none, false, 0⟩ "A" false =
        .awaitDownload ⟨true, false, false, false, none, false, 0⟩ ∧
      (⟨true, false, false, false, none, false, 0⟩ : LLMState).isLoading = false ∧
      loadModelEntry ⟨true, false, false, false, none, false, 0⟩ "B" false ≠
        .alreadyLoadingError := by
  refine ⟨rfl, rfl, ?_⟩
  decide

/-- Claim C3: calling `loadModel(X)` when `X` is the currently loaded
model (and no load is in flight) returns success immediately with the
state record unchanged — in particular `model`, `context`,
`chatSession`, `currentModelName` and `loadProgress` are untouched — no
event is published, and the result does not consult the environment at
all (zero network or engine calls). -/
theorem loadModel_noop_when_loaded (env env2 : LoadEnv) (s : LLMState)
    (name : String) (h1 : s.isLoading = false) (h2 : s.currentModelName = some name)
    (h3 : s.model = true) :
    loadModel env s name = ⟨s, [], .ok true⟩ ∧
      loadModel env s name = loadModel env2 s name := by
  constructor <;> simp [loadModel, h1, h2, h3]

/-- Witness for C3 at a concrete loaded state. -/
theorem loadModel_noop_when_loaded_witness :
    loadModel ⟨true, [7], .error "net", false, .error "a", .error "b", .error "c"⟩
        ⟨true, true, true, true, some "X", false, 100⟩ "X" =
      ⟨⟨true, true, true, true, some "X", false, 100⟩, [], .ok true⟩ :=
  (loadModel_noop_when_loaded _
    ⟨false, [], .ok (), true, .ok (), .ok (), .ok ()⟩ _ _ rfl rfl rfl).1

/-- Claim C7: `isModelValid` returns true exactly when the file exists,
`statSync` succeeded, and the size is at least
`max(100MB, 0.9 * expectedSizeBytes)`; any filesystem error yields
false.  In particular a file of 899999999 bytes for an expected size of
1000000000 bytes is invalid even though it exists. -/
theorem isModelValid_size_gate :
    (∀ (fileExists : Bool) (stat : Except Unit Nat) (e : Nat),
        isModelValid fileExists stat (some e) = isModelValid_spec fileExists stat e) ∧
      isModelValid true (.ok 899999999) (some 1000000000) = false := by
  constructor
  · intro fileExists stat e
    cases fileExists <;> cases stat <;>
      simp [isModelValid, isModelValid_spec]
    rw [Bool.eq_iff_iff]
    simp [max_le_iff, not_lt, mul_comm]
    exact and_comm
  · norm_num [isModelValid]

/-- Claim C9: `notifyProgress` delivers the event to every registered
listener in registration order — the delivery log has one entry per
listener, each the caught outcome of that listener — and returns
normally (its result is a plain log, never a propagated listener
error), so a throwing listener does not prevent delivery to the
remaining listeners. -/
theorem notifyProgress_delivers_to_all (E : Type)
    (listeners : List (ProgressEvent → Except E Unit)) (ev : ProgressEvent) :
    (notifyProgress listeners ev).length = listeners.length ∧
      ∀ i, (notifyProgress listeners ev).get? i =
        (listeners.get? i).map (fun l => deliverOne l ev) := by
  induction listeners with
  | nil => exact ⟨rfl, fun i => by cases i <;> rfl⟩
  | cons l ls ih =>
      refine ⟨by simpa [notifyProgress] using ih.1, fun i => ?_⟩
      cases i with
      | zero => simp [notifyProgress, deliverOne]
      | succ n => simpa [notifyProgress] using ih.2 n

/-- Any failure inside the `try` block of `loadModel` reaches the
`catch` block: the thrown error is returned, `isLoading` is cleared,
`loadProgress` is reset to 0, `currentModelName` ends up null, and the
last published event is the `error` event carrying the message. -/
theorem enginePhase_error (env : LoadEnv) (s : LLMState) (evs : List ProgressEvent)
    (name e : String) (h : engineErr env s = some e)
    (hn : s.model = true ∨ s.currentModelName = none) :
    (enginePhase env s evs name).result = .error e ∧
      (enginePhase env s evs name).state.isLoading = false ∧
      (enginePhase env s evs name).state.loadProgress = 0 ∧
      (enginePhase env s evs name).state.currentModelName = none ∧
      (enginePhase env s evs name).events.getLast? =
        some ⟨"error", 0, name, some e⟩ := by
  unfold engineErr at h
  unfold enginePhase
  rcases hn with hn | hn <;>
    by_cases hm : s.model = true <;>
    by_cases hl : s.llama = true <;>
    by_cases hi : env.initOk = true <;>
    rcases hE : env.engineLoadResult with eE | uE <;>
    rcases hC : env.createContextResult with eC | uC <;>
    rcases hS : env.createSessionResult with eS | uS <;>
    simp_all [catchLoad, List.getLast?_concat]

/-- Claim C2 (amended): for every failure inside the guarded engine
phase of a requested load — engine model load (including the null
dereference after a failed engine initialization), context creation, or
chat-session creation — `loadModel` performs the error transition:
the error is thrown to the caller, `isLoading` is cleared,
`loadProgress` is reset to 0, `currentModelName` ends up null (the
hypothesis `s.model = true ∨ s.currentModelName = none` holds for every
reachable state), and an `error` event carrying the message is
published (it is the last event of the call).  A download failure, by
contrast, happens before the `try` block and enjoys none of this: see
the counterexample. -/
theorem loadModel_engine_failure_error_flow (env : LoadEnv) (s : LLMState)
    (name : String) (e : String) (h1 : s.isLoading = false)
    (h2 : ¬(s.currentModelName = some name ∧ s.model = true))
    (h3 : env.fileExists = true ∨ env.downloadResult = .ok ())
    (h4 : engineErr env s = some e)
    (h5 : s.model = true ∨ s.currentModelName = none) :
    (loadModel env s name).result = .error e ∧
      (loadModel env s name).state.isLoading = false ∧
      (loadModel env s name).state.loadProgress = 0 ∧
      (loadModel env s name).state.currentModelName = none ∧
      (loadModel env s name).events.getLast? = some ⟨"error", 0, name, some e⟩ := by
  unfold loadModel
  by_cases hf : env.fileExists = true
  · simp only [h1, hf, if_true, if_false, Bool.false_eq_true, h2, if_neg h2]
    exact enginePhase_error env _ _ name e h4 h5
  · have hdl : env.downloadResult = .ok () := by
      rcases h3 with h3 | h3
      · exact absurd h3 hf
      · exact h3
    simp only [h1, hf, h2, if_neg h2, if_false, Bool.false_eq_true, hdl]
    exact enginePhase_error env _ _ name e h4 h5

/-- Witness for the amended theorem of claim C2: a failing engine
load from the idle state. -/
theorem loadModel_engine_failure_error_flow_witness :
    (loadModel ⟨true, [], .ok (), true, .error "boom", .ok (), .ok ()⟩
        ⟨true, false, false, false, none, false, 0⟩ "m").result = .error "boom" ∧
      (loadModel ⟨true, [], .ok (), true, .error "boom", .ok (), .ok ()⟩
        ⟨true, false, false, false, none, false, 0⟩ "m").state.isLoading = false ∧
      (loadModel ⟨true, [], .ok (), true, .error "boom", .ok (), .ok ()⟩
        ⟨true, false, false, false, none, false, 0⟩ "m").state.loadProgress = 0 ∧
      (loadModel ⟨true, [], .ok (), true, .error "boom", .ok (), .ok ()⟩
        ⟨true, false, false, false, none, false, 0⟩ "m").state.currentModelName = none ∧
      (loadModel ⟨true, [], .ok (), true, .error "boom", .ok (), .ok ()⟩
        ⟨true, false, false, false, none, false, 0⟩ "m").events.getLast? =
          some ⟨"error", 0, "m", some "boom"⟩ :=
  loadModel_engine_failure_error_flow _ _ "m" "boom" rfl (by simp) (Or.inl rfl)
    rfl (Or.inr rfl)

/-- Counterexample to claim C2 as stated: a download failure (here an
HTTP error after one 40% chunk, with a model "B" previously loaded) is
thrown to the caller, but no `error` event is published to the
listeners, `loadProgress` is left at the partial-download value 20
rather than reset to 0, and `currentModelName` still names the previous
model instead of being reset to null — the download happens before the
`try`/`catch` of `loadModel`. -/
theorem loadModel_download_failure_cex :
    (loadModel ⟨false, [40], .error "Download failed: HTTP 404", true, .ok (), .ok (), .ok ()⟩
        ⟨true, true, true, true, some "B", false, 100⟩ "m").result =
          .error "Download failed: HTTP 404" ∧
      ((loadModel ⟨false, [40], .error "Download failed: HTTP 404", true, .ok (), .ok (), .ok ()⟩
        ⟨true, true, true, true, some "B", false, 100⟩ "m").events.all
          (fun ev => ev.kind != "error")) = true ∧
      (loadModel ⟨false, [40], .error "Download failed: HTTP 404", true, .ok (), .ok (), .ok ()⟩
        ⟨true, true, true, true, some "B", false, 100⟩ "m").state.loadProgress = 20 ∧
      (loadModel ⟨false, [40], .error "Download failed: HTTP 404", true, .ok (), .ok (), .ok ()⟩
        ⟨true, true, true, true, some "B", false, 100⟩ "m").state.currentModelName =
          some "B" := by
  refine ⟨rfl, rfl, ?_, rfl⟩
  show ((40 : ℚ) / 2) = 20
  norm_num

/-- Claim C4: the three-tier policy of `summarize`.  Empty or
whitespace-only input returns the empty string with zero chat calls;
input with estimated tokens below 700 issues exactly the one direct
summarization call; longer input chunking to exactly one chunk issues
exactly the one truncate-then-summarize call; longer input with
multiple chunks issues one call per chunk for at most the first 5
chunks (later chunks are dropped) followed by exactly one final combine
call. -/
theorem summarize_tiering (chatFn : List Char → List Char) (text : List Char)
    (maxLength : Nat) :
    (if trim text = [] then summarize chatFn text maxLength = ([], []) else True) ∧
      (if trim text ≠ [] ∧ estimateTokens text < 700 then
        (summarize chatFn text maxLength).2 = [directPrompt maxLength text]
       else True) ∧
      (if trim text ≠ [] ∧ ¬estimateTokens text < 700 ∧ (chunkText text 500).length = 1 then
        (summarize chatFn text maxLength).2 =
          [directPrompt maxLength (truncateForContext text 700)]
       else True) ∧
      (if trim text ≠ [] ∧ ¬estimateTokens text < 700 ∧ (chunkText text 500).length ≠ 1 then
        (summarize chatFn text maxLength).2 =
            ((chunkText text 500).take 5).map chunkPrompt ++
              [finalPrompt maxLength (List.intercalate [' ']
                (((chunkText text 500).take 5).map (fun c => trim (chatFn (chunkPrompt c)))))] ∧
          (summarize chatFn text maxLength).2.length = min ((chunkText text 500).length) 5 + 1
       else True) := by
  by_cases h1 : trim text = [] <;>
    by_cases h2 : estimateTokens text < 700 <;>
    by_cases h3 : (chunkText text 500).length = 1 <;>
    simp [summarize, h1, h2, h3]
  all_goals omega

/-- Extending a paragraph run by one paragraph performs exactly the
accumulation step of the `chunkText` loop. -/
theorem jsJoin_concat (run : List (List Char)) (p : List Char) :
    jsJoin (run ++ [p]) =
      jsJoin run ++ (if jsJoin run = [] then [] else ['\n', '\n']) ++ p := by
  simp [jsJoin, List.foldl_append]

/-- The paragraph loop of `chunkText` partitions the paragraph list
into consecutive runs: given the pending run whose accumulation is the
current chunk, the produced chunks are exactly the trimmed joins of
consecutive runs covering, in order, the pending run followed by all
remaining paragraphs — except for a final remainder whose join trims to
nothing (the loop drops a whitespace-only final chunk). -/
theorem chunkTextAux_partition (maxChars : Nat) (ps : List (List Char)) :
    ∀ prevRun : List (List Char),
      ∃ (runs : List (List (List Char))) (rest : List (List Char)),
        prevRun ++ ps = runs.flatten ++ rest ∧
          chunkTextAux maxChars ps (jsJoin prevRun) =
            runs.map (fun r => trim (jsJoin r)) ∧
          trim (jsJoin rest) = [] := by
  induction ps with
  | nil =>
      intro prevRun
      by_cases h : trim (jsJoin prevRun) = []
      · exact ⟨[], prevRun, by simp, by simp [chunkTextAux, h], h⟩
      · exact ⟨[prevRun], [], by simp, by simp [chunkTextAux, h], by simp [jsJoin, trim]⟩
  | cons p ps ih =>
      intro prevRun
      by_cases hc : (jsJoin prevRun ++ p).length > maxChars ∧ (jsJoin prevRun).length > 0
      · obtain ⟨runs, rest, hpart, hchunks, hrest⟩ := ih [p]
        refine ⟨prevRun :: runs, rest, ?_, ?_, hrest⟩
        · simpa using hpart
        · have hp : jsJoin [p] = p := by simp [jsJoin]
          rw [hp] at hchunks
          simp only [chunkTextAux]
          rw [if_pos hc, hchunks]
          simp
      · obtain ⟨runs, rest, hpart, hchunks, hrest⟩ := ih (prevRun ++ [p])
        refine ⟨runs, rest, ?_, ?_, hrest⟩
        · simpa using hpart
        · rw [jsJoin_concat] at hchunks
          simp only [chunkTextAux]
          rw [if_neg hc]
          exact hchunks

/-- Claim C5: `chunkText` splits only on the blank-line paragraph
boundaries produced by `splitPara` and accumulates whole consecutive
paragraphs: its chunks are the trimmed joins of consecutive runs of
paragraphs which, concatenated in order (up to a trailing remainder
that trims to whitespace), reproduce the entire paragraph list of the
input in the original order — so no paragraph is ever split across two
chunks and no paragraph content is reordered. -/
theorem chunkText_paragraph_partition (text : List Char) (maxTokensPerChunk : Nat) :
    ∃ (runs : List (List (List Char))) (rest : List (List Char)),
      splitPara text = runs.flatten ++ rest ∧
        chunkText text maxTokensPerChunk = runs.map (fun r => trim (jsJoin r)) ∧
        trim (jsJoin rest) = [] := by
  have h := chunkTextAux_partition (maxTokensPerChunk * 4) (splitPara text) []
  simpa [chunkText, jsJoin] using h

/-- Claim C6 (amended): for budgets of at least 26 tokens,
`truncateForContext` returns its input unchanged exactly when
`ceil(length/4) ≤ maxTokens`, and otherwise returns a prefix of
`floor(maxTokens*4/2) - 50` characters of the original, the literal
marker, and a suffix of the original of the same length.  For budgets
of 25 tokens or less the computed half-width is not positive and
JavaScript negative-index `slice` semantics produce a different shape:
see the counterexample. -/
theorem truncateForContext_amended (text : List Char) (maxTokens : Nat)
    (h : 26 ≤ maxTokens) :
    truncateForContext text maxTokens = claimedTruncate text maxTokens ∧
      (if estimateTokens text ≤ maxTokens then truncateForContext text maxTokens = text
       else truncateForContext text maxTokens ≠ text) := by
  by_cases hf : estimateTokens text ≤ maxTokens
  · simp [truncateForContext, claimedTruncate, hf]
  · have hlen : 4 * maxTokens + 1 ≤ text.length := by
      unfold estimateTokens at hf; omega
    have hceq : truncateForContext text maxTokens = claimedTruncate text maxTokens := by
      simp only [truncateForContext, claimedTruncate, if_neg hf]
      have h1 : jsIdx text.length ((maxTokens : Int) * 4 / 2 - 50) =
          maxTokens * 4 / 2 - 50 := by
        unfold jsIdx
        rw [if_neg (by omega)]
        omega
      have h2 : jsIdx text.length (50 - (maxTokens : Int) * 4 / 2) =
          text.length - (maxTokens * 4 / 2 - 50) := by
        unfold jsIdx
        rw [if_pos (by omega)]
        omega
      have h0 : jsIdx text.length 0 = 0 := by
        unfold jsIdx; norm_num
      simp [jsSlice1, jsSlice2, h0, h1, h2]
    refine ⟨hceq, ?_⟩
    rw [if_neg hf, hceq]
    intro heq
    have hl := congrArg List.length heq
    simp only [claimedTruncate, if_neg hf, List.length_append] at hl
    rw [List.length_take, List.length_drop] at hl
    have hm : marker.length = 42 := rfl
    omega

/-- Witness for the amended theorem of claim C6 at budget 26 on a
105-character text. -/
theorem truncateForContext_amended_witness :
    truncateForContext (List.replicate 105 'a') 26 =
        claimedTruncate (List.replicate 105 'a') 26 ∧
      (if estimateTokens (List.replicate 105 'a') ≤ 26 then
        truncateForContext (List.replicate 105 'a') 26 = List.replicate 105 'a'
       else truncateForContext (List.replicate 105 'a') 26 ≠ List.replicate 105 'a') :=
  truncateForContext_amended _ _ (by norm_num)

/-- Counterexample to claim C6 as stated: at budget 10 on a
41-character text the claimed half-width `floor(10*4/2) - 50` is
negative (clamped: zero, so the claimed shape is the bare marker), but
the code, through JavaScript negative-index `slice` semantics, keeps 11
characters from each end instead. -/
theorem truncateForContext_small_budget_cex :
    truncateForContext (List.replicate 41 'a') 10 ≠
      claimedTruncate (List.replicate 41 'a') 10 := by
  decide

/-- `firstIdx` finds a valid index whose character satisfies the
predicate. -/
theorem firstIdx_spec (p : Char → Bool) :
    ∀ (s : List Char) (i : Nat), firstIdx p s = some i →
      i < s.length ∧ ∃ c, s[i]? = some c ∧ p c = true := by
  intro s
  induction s with
  | nil => intro i h; simp [firstIdx] at h
  | cons c cs ih =>
      intro i h
      by_cases hp : p c = true
      · simp [firstIdx, hp] at h
        subst h
        exact ⟨by simp, c, by simp, hp⟩
      · simp [firstIdx, hp] at h
        obtain ⟨j, hj, rfl⟩ := h
        obtain ⟨hlt, d, hd, hpd⟩ := ih j hj
        refine ⟨by simp; omega, d, by simpa using hd, hpd⟩

/-- `lastIdx` finds a valid index whose character satisfies the
predicate. -/
theorem lastIdx_spec (p : Char → Bool) (s : List Char) (j : Nat)
    (h : lastIdx p s = some j) :
    j < s.length ∧ ∃ c, s[j]? = some c ∧ p c = true := by
  unfold lastIdx at h
  rcases hr : firstIdx p s.reverse with _ | r
  · rw [hr] at h; simp at h
  · rw [hr] at h
    simp at h
    obtain ⟨hlt, c, hc, hpc⟩ := firstIdx_spec p s.reverse r hr
    rw [List.length_reverse] at hlt
    rw [List.getElem?_reverse hlt] at hc
    subst h
    exact ⟨by omega, c, hc, hpc⟩

/-- Claim C8: `parseCommand` never throws past the chat call: when the
response contains no brace-delimited substring, or when parsing the
extracted substring fails, it returns the structured fallback carrying
the original command; when parsing succeeds it returns the parsed
object.  The extracted substring is brace-delimited — it starts with
the first opening brace of the response, ends with a closing brace, and
is a contiguous substring of the response. -/
theorem parseCommand_extract_or_fallback (J : Type)
    (jsonParse : List Char → Option J) (resp cmd : List Char) :
    match extractBraced resp with
    | none => parseCommand jsonParse resp cmd = .fallbackUnknown cmd
    | some m =>
        m.head? = some '{' ∧ m.getLast? = some '}' ∧ m <:+: resp ∧
          parseCommand jsonParse resp cmd =
            (match jsonParse m with
             | some obj => .parsed obj
             | none => .fallbackUnknown cmd) := by
  rcases hEx : extractBraced resp with _ | m
  · dsimp only
    simp [parseCommand, hEx]
  · dsimp only
    have hEx0 := hEx
    unfold extractBraced at hEx
    rcases hF : firstIdx (fun c => c == '{') resp with _ | i <;> rw [hF] at hEx
    · simp at hEx
    rcases hL : lastIdx (fun c => c == '}') resp with _ | j <;> rw [hL] at hEx
    · simp at hEx
    by_cases hij : i < j
    · simp only [hij, if_true] at hEx
      obtain ⟨hilen, ci, hci, hpi⟩ := firstIdx_spec _ resp i hF
      obtain ⟨hjlen, cj, hcj, hpj⟩ := lastIdx_spec _ resp j hL
      have hci' : resp[i]? = some '{' := by
        rw [hci]; simp at hpi; rw [hpi]
      have hcj' : resp[j]? = some '}' := by
        rw [hcj]; simp at hpj; rw [hpj]
      obtain rfl : (resp.take (j + 1)).drop i = m := by
        injection hEx
      refine ⟨?_, ?_, ?_, ?_⟩
      · rw [List.head?_drop, List.getElem?_take_of_lt (by omega)]
        exact hci'
      · rw [List.getLast?_drop]
        rw [if_neg (by simp; omega)]
        rw [List.getLast?_eq_getElem?]
        have hlt : (resp.take (j + 1)).length = j + 1 := by simp; omega
        rw [hlt]
        simpa [List.getElem?_take_of_lt (Nat.lt_succ_self j)] using hcj'
      · refine ⟨resp.take i, resp.drop (j + 1), ?_⟩
        have ht : resp.take i = (resp.take (j + 1)).take i := by
          rw [List.take_take]
          congr 1
          omega
        rw [ht, List.take_append_drop, List.take_append_drop]
      · simp only [parseCommand, hEx0]
    · simp only [hij, if_false] at hEx
      simp at hEx

/-- The `find-or-sentinel` pattern of `batchCategorize` produces
either a listed category or the sentinel string. -/
theorem find_or_unknown (categories : List (List Char)) (p : List Char → Bool) :
    (match categories.find? p with
      | some c => if c = [] then "unknown".data else c
      | none => "unknown".data) ∈ categories ∨
      (match categories.find? p with
        | some c => if c = [] then "unknown".data else c
        | none => "unknown".data) = "unknown".data := by
  rcases hf : categories.find? p with _ | c
  · exact Or.inr rfl
  · by_cases hc : c = []
    · simp [hc]
    · simp [hc]
      exact Or.inl (List.mem_of_find?_eq_some hf)

/-- `categorizeLine` yields either an element of the category list or
the sentinel string. -/
theorem categorizeLine_mem (categories : List (List Char)) (line : List Char) :
    categorizeLine categories line ∈ categories ∨
      categorizeLine categories line = "unknown".data := by
  unfold categorizeLine
  dsimp only
  exact find_or_unknown categories _

/-- The per-batch line loop keeps titles and urls in order and assigns
only listed categories or the sentinel. -/
theorem processLines_spec (categories : List (List Char)) (lines : List (List Char)) :
    ∀ (idx : Nat) (batch : List UrlItem),
      (processLines categories lines idx batch).map (fun c => (c.title, c.url)) =
          batch.map (fun it => (it.title, it.url)) ∧
        ((processLines categories lines idx batch).all (fun c =>
          decide (c.category ∈ categories) || decide (c.category = "unknown".data))) = true := by
  intro idx batch
  induction batch generalizing idx with
  | nil => simp [processLines]
  | cons it rest ih =>
      refine ⟨?_, ?_⟩
      · simp [processLines, (ih (idx + 1)).1]
      · simp only [processLines, List.all_cons, Bool.and_eq_true]
        refine ⟨?_, (ih (idx + 1)).2⟩
        have hm := categorizeLine_mem categories ((lines.get? idx).getD [])
        rw [List.get?_eq_getElem?] at hm
        rcases hm with hm | hm <;> simp [hm]

/-- One batch keeps titles and urls in order and assigns only listed
categories or the sentinel, for both a successful and a thrown chat
call. -/
theorem processBatch_spec (categories : List (List Char)) (batch : List UrlItem)
    (resp : Except Unit (List Char)) :
    (processBatch categories batch resp).map (fun c => (c.title, c.url)) =
        batch.map (fun it => (it.title, it.url)) ∧
      ((processBatch categories batch resp).all (fun c =>
        decide (c.category ∈ categories) || decide (c.category = "unknown".data))) = true := by
  rcases resp with u | response
  · constructor
    · simp [processBatch]
    · simp [processBatch]
  · exact processLines_spec categories (splitOnNl (trim response)) 0 batch

/-- The batch loop preserves the item list (projected to title and
url) and the category invariant. -/
theorem bcGo_spec (chatFn : Nat → Except Unit (List Char))
    (categories : List (List Char)) :
    ∀ (n : Nat) (b : Nat) (items : List UrlItem), items.length ≤ n →
      (bcGo chatFn categories b items).map (fun c => (c.title, c.url)) =
          items.map (fun it => (it.title, it.url)) ∧
        ((bcGo chatFn categories b items).all (fun c =>
          decide (c.category ∈ categories) || decide (c.category = "unknown".data))) = true := by
  intro n
  induction n with
  | zero =>
      intro b items h
      have : items = [] := List.length_eq_zero.mp (Nat.le_zero.mp h)
      subst this
      simp [bcGo]
  | succ n ih =>
      intro b items h
      rcases items with _ | ⟨it, rest⟩
      · simp [bcGo]
      · rw [bcGo]
        have h3 : ((it :: rest).drop 3).length ≤ n := by
          simp
          simp at h
          omega
        obtain ⟨ihm, iha⟩ := ih (b + 1) ((it :: rest).drop 3) h3
        obtain ⟨pbm, pba⟩ := processBatch_spec categories ((it :: rest).take 3) (chatFn b)
        constructor
        · rw [List.map_append, ihm, pbm, ← List.map_append, List.take_append_drop]
        · rw [List.all_append, pba, iha]
          rfl

/-- Claim C10: `batchCategorize` returns exactly one result per input
item in the original order, each preserving that item title and url
unchanged, with a category that is either an element of the given
category list or the sentinel "unknown"; and a batch whose chat call
throws resolves every one of its items to the sentinel. -/
theorem batchCategorize_invariants (chatFn : Nat → Except Unit (List Char))
    (items : List UrlItem) (categories : List (List Char)) (batch : List UrlItem) :
    (batchCategorize chatFn items categories).map (fun c => (c.title, c.url)) =
        items.map (fun it => (it.title, it.url)) ∧
      ((batchCategorize chatFn items categories).all (fun c =>
        decide (c.category ∈ categories) || decide (c.category = "unknown".data))) = true ∧
      processBatch categories batch (.error ()) =
        batch.map (fun it => ⟨it.title, it.url, "unknown".data⟩) := by
  refine ⟨?_, ?_, rfl⟩ <;>
  · unfold batchCategorize
    by_cases h : items = []
    · simp [h]
    · rw [if_neg h]
      have := bcGo_spec chatFn categories items.length 0 items (Nat.le_refl _)
      first
        | exact this.1
        | exact this.2

end LocalLLM
